import Mathlib

/-! Shallow embedding of the ETL and analytics core of
src/RetailAnalyticsDashboard.jsx.  Record numbers are modelled as exact
rationals.  JavaScript divisions that may produce NaN or an infinity
are modelled by JSNum, and Number.prototype.toFixed by jsToFixed.  A
date string is modelled as the parsed year/month/day triple; the
runtime time-zone offset and default-locale short month names, on
which new Date(s).getMonth() and the toLocaleString month rendering
depend, are modelled by Env. -/

namespace Retail

/-- Result of a JavaScript arithmetic operation: a finite number, an
infinity, or NaN. -/
inductive JSNum where
  | num (q : ℚ)
  | posInf
  | negInf
  | nan
deriving DecidableEq

/-- JavaScript division of two finite numbers: IEEE-754 semantics for a
zero denominator (negative zero never arises in this program, so it is
ignored). -/
def jsDiv (a b : ℚ) : JSNum :=
  if b = 0 then
    if a = 0 then .nan else if 0 < a then .posInf else .negInf
  else .num (a / b)

/-- JavaScript multiplication of a possibly non-finite value by a
positive finite constant (here only the literal 100). -/
def jsMulPos (x : JSNum) (c : ℚ) : JSNum :=
  match x with
  | .num q => .num (q * c)
  | .posInf => .posInf
  | .negInf => .negInf
  | .nan => .nan

/-- Left-pad a digit string with zeros to length d. -/
def padZeros (d : Nat) (s : String) : String :=
  String.mk (List.replicate (d - s.length) '0') ++ s

/-- Number.prototype.toFixed on a finite value: pick the integer n for
which n / 10^d is nearest to q, the larger n on a tie (ECMA-262), and
render n / 10^d with exactly d digits after the point. -/
def ratToFixed (d : Nat) (q : ℚ) : String :=
  let n : Int := ⌊q * (10 : ℚ) ^ d + 1 / 2⌋
  if d = 0 then toString n
  else
    (if n < 0 then "-" else "") ++ toString (n.natAbs / 10 ^ d) ++ "." ++
      padZeros d (toString (n.natAbs % 10 ^ d))

/-- Number.prototype.toFixed, including the NaN and infinity
renderings. -/
def jsToFixed (d : Nat) : JSNum → String
  | .num q => ratToFixed d q
  | .posInf => "Infinity"
  | .negInf => "-Infinity"
  | .nan => "NaN"

/-- A calendar date, as parsed from the ISO YYYY-MM-DD strings the
records carry; new Date on such a string denotes midnight UTC of that
day. -/
structure DateYMD where
  year : Nat
  month : Nat
  day : Nat
deriving DecidableEq

/-- The runtime environment the Date methods depend on: the local-time
offset from UTC in minutes (positive east of UTC; every real offset is
smaller than one day in magnitude) and the short month names of the
default locale. -/
structure Env where
  tzOffsetMinutes : Int
  monthShort : Fin 12 → String

/-- Zero-based month index returned by new Date(dateString).getMonth():
midnight UTC of the parsed day, viewed in local time.  A negative
offset moves to the previous local day, hence to the previous month
exactly when the day of month is 1. -/
def localMonth0 (off : Int) (d : DateYMD) : Fin 12 :=
  if 0 ≤ off then ⟨(d.month - 1) % 12, Nat.mod_lt _ (by decide)⟩
  else if 1 < d.day then ⟨(d.month - 1) % 12, Nat.mod_lt _ (by decide)⟩
  else ⟨(d.month + 10) % 12, Nat.mod_lt _ (by decide)⟩

/-- A raw transaction record. -/
structure Row where
  transaction_id : Int
  date : DateYMD
  category : String
  region : String
  channel : String
  customer_segment : String
  quantity : ℚ
  unit_price : ℚ
  revenue : ℚ
  cost : ℚ
  profit : ℚ
  issue_flag : String
deriving DecidableEq

/-- A cleaned record: a Row plus the fields the enrichment stage adds
(the object spread keeps every original field). -/
structure CRow extends Row where
  profit_margin : String
  month : String
  quarter : String
deriving DecidableEq

/-- The etlLog counters. -/
structure ETLLog where
  totalRecords : Nat
  duplicatesRemoved : Nat
  missingValuesHandled : Nat
  negativeValuesFixed : Nat
  outliersRemoved : Nat
  recordsAfterCleaning : Nat
deriving DecidableEq

/-- The deduplication filter, carrying the uniqueIds set and the
duplicatesRemoved counter. -/
def dedupGo (seen : List Int) : List Row → List Row × Nat
  | [] => ([], 0)
  | r :: rs =>
    if r.transaction_id ∈ seen then
      ((dedupGo seen rs).1, (dedupGo seen rs).2 + 1)
    else
      (r :: (dedupGo (r.transaction_id :: seen) rs).1,
       (dedupGo (r.transaction_id :: seen) rs).2)

def dedupStage (l : List Row) : List Row × Nat := dedupGo [] l

/-- Missing-value stage: drop rows whose category or customer_segment
is falsy (for these string fields: the empty string), counting each
drop in missingValuesHandled. -/
def missingStage : List Row → List Row × Nat
  | [] => ([], 0)
  | r :: rs =>
    if r.category = "" ∨ r.customer_segment = "" then
      ((missingStage rs).1, (missingStage rs).2 + 1)
    else (r :: (missingStage rs).1, (missingStage rs).2)

/-- Negative-value normalisation of a single row. -/
def normRow (r : Row) : Row :=
  if r.quantity < 0 ∨ r.revenue < 0 then
    { r with quantity := |r.quantity|, revenue := |r.revenue| }
  else r

/-- Negative-value stage: map normRow over the set; the
negativeValuesFixed counter is incremented once per row entering the
then-branch. -/
def normalizeStage (l : List Row) : List Row × Nat :=
  (l.map normRow, l.countP fun r => decide (r.quantity < 0) || decide (r.revenue < 0))

/-- reduce((sum, row) => sum + row.revenue, 0) / length.  On the empty
list JavaScript yields NaN, and filtering the empty list keeps
nothing; the rational junk value 0 / 0 = 0 used here filters the empty
list to the same empty result, so the stage agrees extensionally. -/
def meanRev (l : List Row) : ℚ := (l.map Row.revenue).sum / l.length

/-- The outlier filter at a given mean, with the outliersRemoved
counter. -/
def dropOutliers (avg : ℚ) : List Row → List Row × Nat
  | [] => ([], 0)
  | r :: rs =>
    if avg * 5 < r.revenue then ((dropOutliers avg rs).1, (dropOutliers avg rs).2 + 1)
    else (r :: (dropOutliers avg rs).1, (dropOutliers avg rs).2)

def outlierStage (l : List Row) : List Row × Nat := dropOutliers (meanRev l) l

/-- Enrichment of one row: profit_margin through toFixed(2), month as
the default-locale short name of the locally-viewed month, quarter as
Q followed by Math.ceil((getMonth() + 1) / 3); in Nat arithmetic the
ceiling of (m + 1) / 3 is (m + 3) / 3. -/
def enrichRow (env : Env) (r : Row) : CRow :=
  { toRow := r
    profit_margin := jsToFixed 2 (jsMulPos (jsDiv r.profit r.revenue) 100)
    month := env.monthShort (localMonth0 env.tzOffsetMinutes r.date)
    quarter := "Q" ++ toString (((localMonth0 env.tzOffsetMinutes r.date).1 + 3) / 3) }

def enrichStage (env : Env) (l : List Row) : List CRow := l.map (enrichRow env)

/-- The full performETL pipeline: the five stages in order plus the
etlLog counters. -/
def performETL (env : Env) (raw : List Row) : List CRow × ETLLog :=
  let d1 := dedupStage raw
  let d2 := missingStage d1.1
  let d3 := normalizeStage d2.1
  let d4 := outlierStage d3.1
  let cleaned := enrichStage env d4.1
  (cleaned,
   { totalRecords := raw.length
     duplicatesRemoved := d1.2
     missingValuesHandled := d2.2
     negativeValuesFixed := d3.2
     outliersRemoved := d4.2
     recordsAfterCleaning := cleaned.length })

/-- The filteredData memo: equality predicates with the All sentinel,
ANDed. -/
def applyFilters (selectedRegion selectedCategory : String) (l : List CRow) : List CRow :=
  l.filter fun r =>
    (selectedRegion == "All" || r.region == selectedRegion) &&
    (selectedCategory == "All" || r.category == selectedCategory)

/-- The object returned by the kpis memo (numeric results are rendered
with toFixed, as in the source). -/
structure KPISet where
  totalRevenue : String
  totalProfit : String
  totalTransactions : Nat
  avgOrderValue : String
  profitMargin : String
deriving DecidableEq

/-- The reduce computing totalRevenue inside the kpis memo. -/
def totalRevenueOf (l : List CRow) : ℚ := l.foldl (fun s r => s + r.revenue) 0

/-- The reduce computing totalProfit inside the kpis memo. -/
def totalProfitOf (l : List CRow) : ℚ := l.foldl (fun s r => s + r.profit) 0

def kpis (l : List CRow) : KPISet :=
  let totalRevenue := totalRevenueOf l
  let totalProfit := totalProfitOf l
  let totalTransactions := l.length
  { totalRevenue := jsToFixed 0 (.num totalRevenue)
    totalProfit := jsToFixed 0 (.num totalProfit)
    totalTransactions := totalTransactions
    avgOrderValue := jsToFixed 2 (jsDiv totalRevenue totalTransactions)
    profitMargin := jsToFixed 2 (jsMulPos (jsDiv totalProfit totalRevenue) 100) }

/-- One grouped accumulator of the categoryData memo. -/
structure CatRow where
  category : String
  revenue : ℚ
  profit : ℚ
  transactions : Nat
deriving DecidableEq

/-- Fold one row into the grouped accumulators; a new category key is
appended at the end, matching JavaScript object insertion order. -/
def upsertCat : List CatRow → CRow → List CatRow
  | [], r => [⟨r.category, r.revenue, r.profit, 1⟩]
  | g :: gs, r =>
    if g.category = r.category then
      { g with revenue := g.revenue + r.revenue, profit := g.profit + r.profit,
               transactions := g.transactions + 1 } :: gs
    else g :: upsertCat gs r

/-- The comparator (a, b) => b.revenue - a.revenue: a precedes b when
b.revenue ≤ a.revenue. -/
def catRevGE (a b : CatRow) : Prop := b.revenue ≤ a.revenue

instance : DecidableRel catRevGE := fun a b => inferInstanceAs (Decidable (b.revenue ≤ a.revenue))

instance : IsTotal CatRow catRevGE := ⟨fun a b => (le_total b.revenue a.revenue).imp id id⟩

instance : IsTrans CatRow catRevGE := ⟨fun _ _ _ h₁ h₂ => le_trans h₂ h₁⟩

/-- The categoryData memo: group by category, then sort descending by
summed revenue. -/
def categoryData (l : List CRow) : List CatRow :=
  List.insertionSort catRevGE (l.foldl upsertCat [])

/-- One grouped accumulator of the monthlyTrend memo. -/
structure MonthRow where
  month : String
  revenue : ℚ
  profit : ℚ
deriving DecidableEq

def upsertMonth : List MonthRow → CRow → List MonthRow
  | [], r => [⟨r.month, r.revenue, r.profit⟩]
  | g :: gs, r =>
    if g.month = r.month then
      { g with revenue := g.revenue + r.revenue, profit := g.profit + r.profit } :: gs
    else g :: upsertMonth gs r

def monthOrder : List String :=
  ["Jan", "Feb", "Mar", "Apr", "May", "Jun", "Jul", "Aug", "Sep", "Oct", "Nov", "Dec"]

/-- grouped[m] with the zero default, for one month name. -/
def monthEntry (l : List CRow) (m : String) : MonthRow :=
  match (l.foldl upsertMonth []).find? (fun g => g.month == m) with
  | some g => g
  | none => ⟨m, 0, 0⟩

/-- The monthlyTrend memo. -/
def monthlyTrend (l : List CRow) : List MonthRow := monthOrder.map (monthEntry l)

/-- The environment of an English-locale runtime at UTC. -/
def envEN : Env :=
  { tzOffsetMinutes := 0
    monthShort := fun i => monthOrder.getD i.1 "" }

/-- An English-locale runtime five hours west of UTC. -/
def envNY : Env :=
  { tzOffsetMinutes := -300
    monthShort := fun i => monthOrder.getD i.1 "" }

/-- The short month names of a French-locale runtime. -/
def frMonthShort : List String :=
  ["janv.", "févr.", "mars", "avr.", "mai", "juin",
   "juil.", "août", "sept.", "oct.", "nov.", "déc."]

/-- A French-locale runtime at UTC. -/
def envFR : Env :=
  { tzOffsetMinutes := 0
    monthShort := fun i => frMonthShort.getD i.1 "" }

/-- A well-formed sample record. -/
def rowA : Row :=
  { transaction_id := 1000, date := ⟨2023, 3, 15⟩, category := "Electronics",
    region := "North", channel := "Online", customer_segment := "Premium",
    quantity := 2, unit_price := 100, revenue := 200, cost := 150, profit := 50,
    issue_flag := "clean" }

/-- A record sharing rowA's transaction id with different fields. -/
def rowB : Row := { rowA with region := "South", revenue := 90, profit := 10 }

/-- A record with negative quantity and revenue. -/
def rowNeg : Row := { rowA with transaction_id := 1001, quantity := -3, revenue := -60 }

/-- A record with zero revenue and zero profit. -/
def rowZeroRev : Row := { rowA with transaction_id := 1002, revenue := 0, profit := 0 }

/-- A record with zero revenue and positive profit. -/
def rowZeroRevPos : Row := { rowA with transaction_id := 1003, revenue := 0, profit := 5 }

/-- A record dated the first of January. -/
def rowJan1 : Row := { rowA with transaction_id := 1004, date := ⟨2023, 1, 1⟩ }

/-! Helper lemmas about the individual stages. -/

theorem performETL_fst (env : Env) (raw : List Row) :
    (performETL env raw).1 =
      enrichStage env (outlierStage (normalizeStage (missingStage (dedupStage raw).1).1).1).1 :=
  rfl

theorem dedupGo_sublist (seen : List Int) (l : List Row) : (dedupGo seen l).1.Sublist l := by
  induction l generalizing seen with
  | nil => simp [dedupGo]
  | cons x rs ih =>
    by_cases h : x.transaction_id ∈ seen
    · simp only [dedupGo, if_pos h]
      exact (ih seen).cons x
    · simp only [dedupGo, if_neg h]
      exact (ih _).cons₂ x

theorem dedupGo_id_not_seen (seen : List Int) (l : List Row) :
    ∀ r ∈ (dedupGo seen l).1, r.transaction_id ∉ seen := by
  induction l generalizing seen with
  | nil => simp [dedupGo]
  | cons x rs ih =>
    by_cases h : x.transaction_id ∈ seen
    · simp only [dedupGo, if_pos h]
      exact ih seen
    · simp only [dedupGo, if_neg h]
      intro r hr
      rcases List.mem_cons.mp hr with rfl | hr'
      · exact h
      · exact fun hs => ih _ r hr' (List.mem_cons_of_mem _ hs)

theorem dedupGo_ids_nodup (seen : List Int) (l : List Row) :
    ((dedupGo seen l).1.map fun r => r.transaction_id).Nodup := by
  induction l generalizing seen with
  | nil => simp [dedupGo]
  | cons x rs ih =>
    by_cases h : x.transaction_id ∈ seen
    · simp only [dedupGo, if_pos h]
      exact ih seen
    · simp only [dedupGo, if_neg h, List.map_cons, List.nodup_cons]
      refine ⟨fun hmem => ?_, ih _⟩
      rcases List.mem_map.mp hmem with ⟨r, hr, hid⟩
      exact dedupGo_id_not_seen _ _ r hr (hid ▸ List.mem_cons_self _ _)

theorem dedupGo_first (seen : List Int) (l : List Row) :
    ∀ r ∈ (dedupGo seen l).1,
      l.find? (fun x => x.transaction_id == r.transaction_id) = some r := by
  induction l generalizing seen with
  | nil => simp [dedupGo]
  | cons x rs ih =>
    by_cases h : x.transaction_id ∈ seen
    · simp only [dedupGo, if_pos h]
      intro r hr
      have hne : r.transaction_id ≠ x.transaction_id := fun he =>
        dedupGo_id_not_seen seen rs r hr (he ▸ h)
      rw [List.find?_cons_of_neg _ (by simpa using fun he => hne he.symm)]
      exact ih seen r hr
    · simp only [dedupGo, if_neg h]
      intro r hr
      rcases List.mem_cons.mp hr with rfl | hr'
      · rw [List.find?_cons_of_pos _ (by simp)]
      · have hne : r.transaction_id ≠ x.transaction_id := fun he =>
          dedupGo_id_not_seen _ rs r hr' (he ▸ List.mem_cons_self _ _)
        rw [List.find?_cons_of_neg _ (by simpa using fun he => hne he.symm)]
        exact ih _ r hr'

theorem dedupGo_covers (seen : List Int) (l : List Row) :
    ∀ r ∈ l, r.transaction_id ∈ seen ∨
      ∃ s ∈ (dedupGo seen l).1, s.transaction_id = r.transaction_id := by
  induction l generalizing seen with
  | nil => simp
  | cons x rs ih =>
    intro r hr
    by_cases h : x.transaction_id ∈ seen
    · simp only [dedupGo, if_pos h]
      rcases List.mem_cons.mp hr with rfl | hr'
      · exact Or.inl h
      · exact ih seen r hr'
    · simp only [dedupGo, if_neg h]
      rcases List.mem_cons.mp hr with rfl | hr'
      · exact Or.inr ⟨r, List.mem_cons_self _ _, rfl⟩
      · rcases ih (x.transaction_id :: seen) r hr' with hs | ⟨s, hs1, hs2⟩
        · rcases List.mem_cons.mp hs with he | hs'
          · exact Or.inr ⟨x, List.mem_cons_self _ _, he.symm⟩
          · exact Or.inl hs'
        · exact Or.inr ⟨s, List.mem_cons_of_mem _ hs1, hs2⟩

theorem dedupGo_length (seen : List Int) (l : List Row) :
    (dedupGo seen l).1.length + (dedupGo seen l).2 = l.length := by
  induction l generalizing seen with
  | nil => simp [dedupGo]
  | cons x rs ih =>
    by_cases h : x.transaction_id ∈ seen
    · simp only [dedupGo, if_pos h, List.length_cons]
      have := ih seen
      omega
    · simp only [dedupGo, if_neg h, List.length_cons]
      have := ih (x.transaction_id :: seen)
      omega

theorem missingStage_sublist (l : List Row) : (missingStage l).1.Sublist l := by
  induction l with
  | nil => simp [missingStage]
  | cons x rs ih =>
    by_cases h : x.category = "" ∨ x.customer_segment = ""
    · simp only [missingStage, if_pos h]
      exact ih.cons x
    · simp only [missingStage, if_neg h]
      exact ih.cons₂ x

theorem missingStage_nonempty (l : List Row) :
    ∀ r ∈ (missingStage l).1, r.category ≠ "" ∧ r.customer_segment ≠ "" := by
  induction l with
  | nil => simp [missingStage]
  | cons x rs ih =>
    by_cases h : x.category = "" ∨ x.customer_segment = ""
    · simp only [missingStage, if_pos h]
      exact ih
    · simp only [missingStage, if_neg h]
      intro r hr
      rcases List.mem_cons.mp hr with rfl | hr'
      · push_neg at h
        exact h
      · exact ih r hr'

theorem missingStage_length (l : List Row) :
    (missingStage l).1.length + (missingStage l).2 = l.length := by
  induction l with
  | nil => simp [missingStage]
  | cons x rs ih =>
    by_cases h : x.category = "" ∨ x.customer_segment = ""
    · simp only [missingStage, if_pos h, List.length_cons]
      omega
    · simp only [missingStage, if_neg h, List.length_cons]
      omega

theorem normRow_transaction_id (r : Row) : (normRow r).transaction_id = r.transaction_id := by
  unfold normRow
  split <;> rfl

theorem normRow_category (r : Row) : (normRow r).category = r.category := by
  unfold normRow
  split <;> rfl

theorem normRow_customer_segment (r : Row) :
    (normRow r).customer_segment = r.customer_segment := by
  unfold normRow
  split <;> rfl

theorem normRow_nonneg (r : Row) : 0 ≤ (normRow r).quantity ∧ 0 ≤ (normRow r).revenue := by
  unfold normRow
  split
  · exact ⟨abs_nonneg _, abs_nonneg _⟩
  · next h =>
    push_neg at h
    exact h

theorem dropOutliers_fst (avg : ℚ) (l : List Row) :
    (dropOutliers avg l).1 = l.filter fun r => decide (r.revenue ≤ avg * 5) := by
  induction l with
  | nil => rfl
  | cons x rs ih =>
    by_cases h : avg * 5 < x.revenue
    · have hd : decide (x.revenue ≤ avg * 5) = false := by simpa using h
      simp only [dropOutliers, if_pos h, List.filter_cons, hd, ih]
      simp
    · have hd : decide (x.revenue ≤ avg * 5) = true := by simpa using not_lt.mp h
      simp only [dropOutliers, if_neg h, List.filter_cons, hd, ih]
      simp

theorem dropOutliers_snd (avg : ℚ) (l : List Row) :
    (dropOutliers avg l).2 = l.countP fun r => decide (avg * 5 < r.revenue) := by
  induction l with
  | nil => rfl
  | cons x rs ih =>
    by_cases h : avg * 5 < x.revenue
    · have hd : decide (avg * 5 < x.revenue) = true := by simpa using h
      simp only [dropOutliers, if_pos h, List.countP_cons, hd, ih]
      simp
    · have hd : decide (avg * 5 < x.revenue) = false := by simpa using h
      simp only [dropOutliers, if_neg h, List.countP_cons, hd, ih]
      simp

theorem dropOutliers_length (avg : ℚ) (l : List Row) :
    (dropOutliers avg l).1.length + (dropOutliers avg l).2 = l.length := by
  induction l with
  | nil => simp [dropOutliers]
  | cons x rs ih =>
    by_cases h : avg * 5 < x.revenue
    · simp only [dropOutliers, if_pos h, List.length_cons]
      omega
    · simp only [dropOutliers, if_neg h, List.length_cons]
      omega

theorem enrichRow_toRow (env : Env) (r : Row) : (enrichRow env r).toRow = r := rfl

theorem postNormalize_ids_nodup (raw : List Row) :
    ((normalizeStage (missingStage (dedupStage raw).1).1).1.map fun r => r.transaction_id).Nodup := by
  have h2 : ((missingStage (dedupStage raw).1).1.map fun r => r.transaction_id).Nodup :=
    List.Nodup.sublist ((missingStage_sublist _).map _) (dedupGo_ids_nodup [] raw)
  have h3 : ((normalizeStage (missingStage (dedupStage raw).1).1).1.map fun r => r.transaction_id)
      = ((missingStage (dedupStage raw).1).1.map fun r => r.transaction_id) := by
    show (((missingStage (dedupStage raw).1).1.map normRow).map fun r => r.transaction_id) = _
    rw [List.map_map]
    exact List.map_congr_left fun r _ => normRow_transaction_id r
  rw [h3]
  exact h2

theorem postNormalize_fields (raw : List Row) :
    ∀ r ∈ (normalizeStage (missingStage (dedupStage raw).1).1).1,
      r.category ≠ "" ∧ r.customer_segment ≠ "" ∧ 0 ≤ r.quantity ∧ 0 ≤ r.revenue := by
  intro r hr
  have hr' : r ∈ (missingStage (dedupStage raw).1).1.map normRow := hr
  rcases List.mem_map.mp hr' with ⟨t, ht, rfl⟩
  have hne := missingStage_nonempty _ t ht
  have hnn := normRow_nonneg t
  exact ⟨by rw [normRow_category]; exact hne.1,
         by rw [normRow_customer_segment]; exact hne.2, hnn.1, hnn.2⟩

theorem foldl_add_revenue (l : List CRow) (a : ℚ) :
    l.foldl (fun s r => s + r.revenue) a = a + (l.map fun r => r.revenue).sum := by
  induction l generalizing a with
  | nil => simp
  | cons x xs ih => simp [ih, add_assoc]

theorem sum_upsertCat (acc : List CatRow) (r : CRow) :
    ((upsertCat acc r).map fun g => g.revenue).sum
      = ((acc.map fun g => g.revenue).sum) + r.revenue := by
  induction acc with
  | nil => simp [upsertCat]
  | cons g gs ih =>
    by_cases h : g.category = r.category
    · simp only [upsertCat, if_pos h, List.map_cons, List.sum_cons]
      ring
    · simp only [upsertCat, if_neg h, List.map_cons, List.sum_cons, ih]
      ring

theorem sum_foldl_upsertCat (l : List CRow) (acc : List CatRow) :
    ((l.foldl upsertCat acc).map fun g => g.revenue).sum
      = ((acc.map fun g => g.revenue).sum) + (l.map fun r => r.revenue).sum := by
  induction l generalizing acc with
  | nil => simp
  | cons x xs ih =>
    simp only [List.foldl_cons, List.map_cons, List.sum_cons, ih (upsertCat acc x), sum_upsertCat]
    ring

theorem monthEntry_month (l : List CRow) (m : String) : (monthEntry l m).month = m := by
  cases hf : (l.foldl upsertMonth []).find? fun g => g.month == m with
  | none => simp [monthEntry, hf]
  | some g =>
    have hg := List.find?_some hf
    simp only [monthEntry, hf]
    exact eq_of_beq hg

theorem upsertMonth_months (acc : List MonthRow) (r : CRow) :
    ∀ g ∈ upsertMonth acc r, g.month ∈ acc.map MonthRow.month ∨ g.month = r.month := by
  induction acc with
  | nil =>
    intro g hg
    simp only [upsertMonth, List.mem_singleton] at hg
    subst hg
    exact Or.inr rfl
  | cons a as ih =>
    intro g hg
    by_cases h : a.month = r.month
    · simp only [upsertMonth, if_pos h] at hg
      rcases List.mem_cons.mp hg with rfl | hg'
      · exact Or.inl (List.mem_cons_self _ _)
      · exact Or.inl (List.mem_cons_of_mem _ (List.mem_map_of_mem _ hg'))
    · simp only [upsertMonth, if_neg h] at hg
      rcases List.mem_cons.mp hg with rfl | hg'
      · exact Or.inl (List.mem_cons_self _ _)
      · rcases ih g hg' with hm | hm
        · exact Or.inl (List.mem_cons_of_mem _ hm)
        · exact Or.inr hm

theorem foldl_upsertMonth_months (l : List CRow) (acc : List MonthRow) :
    ∀ g ∈ l.foldl upsertMonth acc,
      g.month ∈ acc.map MonthRow.month ∨ ∃ r ∈ l, g.month = r.month := by
  induction l generalizing acc with
  | nil =>
    intro g hg
    exact Or.inl (List.mem_map_of_mem _ hg)
  | cons x xs ih =>
    intro g hg
    rcases ih (upsertMonth acc x) g hg with hm | ⟨r, hr, he⟩
    · rcases List.mem_map.mp hm with ⟨g', hg', he'⟩
      rcases upsertMonth_months acc x g' hg' with h1 | h1
      · exact Or.inl (he' ▸ h1)
      · exact Or.inr ⟨x, List.mem_cons_self _ _, he' ▸ h1⟩
    · exact Or.inr ⟨r, List.mem_cons_of_mem _ hr, he⟩

theorem monthEntry_of_absent (l : List CRow) (m : String) (h : ∀ r ∈ l, r.month ≠ m) :
    monthEntry l m = ⟨m, 0, 0⟩ := by
  have hf : (l.foldl upsertMonth []).find? (fun g => g.month == m) = none := by
    rw [List.find?_eq_none]
    intro g hg
    rcases foldl_upsertMonth_months l [] g hg with hm | ⟨r, hr, he⟩
    · simp at hm
    · simp [he, h r hr]
  simp [monthEntry, hf]

/-! The claims. -/

set_option maxRecDepth 40000

/-- C1 counterexample: on the empty filtered set the code does not
return zero for every KPI: avgOrderValue and the profit-margin
percentage are 0 / 0 = NaN, rendered as the string NaN by toFixed,
while a zero KPI would render as 0.00 (or 0). -/
theorem kpis_empty_counterexample :
    (kpis (applyFilters "All" "All" ([] : List CRow))).avgOrderValue = "NaN" ∧
    (kpis (applyFilters "All" "All" ([] : List CRow))).profitMargin = "NaN" ∧
    jsToFixed 2 (JSNum.num 0) = "0.00" ∧
    jsToFixed 0 (JSNum.num 0) = "0" ∧
    ("NaN" : String) ≠ "0.00" := by
  with_unfolding_all decide

/-- C1 (amended): for every filter predicate pair, when the filtered
set is empty the KPI calculator raises no error and returns zero for
totalRevenue, totalProfit and totalTransactions, but avgOrderValue and
profitMarginPercent are the NaN produced by dividing zero by zero,
rendered NaN, not zero. -/
theorem kpis_empty (selectedRegion selectedCategory : String) (cleaned : List CRow)
    (h : applyFilters selectedRegion selectedCategory cleaned = []) :
    kpis (applyFilters selectedRegion selectedCategory cleaned) =
      { totalRevenue := "0", totalProfit := "0", totalTransactions := 0,
        avgOrderValue := "NaN", profitMargin := "NaN" } := by
  rw [h]
  with_unfolding_all decide

theorem kpis_empty_witness :
    kpis (applyFilters "All" "All" ([] : List CRow)) =
      { totalRevenue := "0", totalProfit := "0", totalTransactions := 0,
        avgOrderValue := "NaN", profitMargin := "NaN" } :=
  kpis_empty "All" "All" [] rfl

/-- C2 (amended): the enrichment stage sets profit_margin to the string
toFixed(2) of profit / revenue * 100 for every record: 25.00 when
revenue = 200 and profit = 50; when revenue = 0 it is the defined
string NaN (profit = 0) or Infinity (profit positive), not an
undefined/null value, and no error is raised. -/
theorem profit_margin_spec (env : Env) (r : Row) :
    (enrichRow env r).profit_margin = jsToFixed 2 (jsMulPos (jsDiv r.profit r.revenue) 100) ∧
    (r.revenue = 200 → r.profit = 50 → (enrichRow env r).profit_margin = "25.00") ∧
    (r.revenue = 0 → r.profit = 0 → (enrichRow env r).profit_margin = "NaN") ∧
    (r.revenue = 0 → 0 < r.profit → (enrichRow env r).profit_margin = "Infinity") := by
  refine ⟨rfl, ?_, ?_, ?_⟩
  · intro h1 h2
    show jsToFixed 2 (jsMulPos (jsDiv r.profit r.revenue) 100) = "25.00"
    rw [h1, h2]
    with_unfolding_all decide
  · intro h1 h2
    show jsToFixed 2 (jsMulPos (jsDiv r.profit r.revenue) 100) = "NaN"
    rw [h1, h2]
    with_unfolding_all decide
  · intro h1 h2
    show jsToFixed 2 (jsMulPos (jsDiv r.profit r.revenue) 100) = "Infinity"
    rw [h1]
    unfold jsDiv
    rw [if_pos rfl, if_neg (ne_of_gt h2), if_pos h2]
    rfl

theorem profit_margin_spec_witness :
    (enrichRow envEN rowA).profit_margin = "25.00" ∧
    (enrichRow envEN rowZeroRev).profit_margin = "NaN" ∧
    (enrichRow envEN rowZeroRevPos).profit_margin = "Infinity" :=
  ⟨(profit_margin_spec envEN rowA).2.1 rfl rfl,
   (profit_margin_spec envEN rowZeroRev).2.2.1 rfl rfl,
   (profit_margin_spec envEN rowZeroRevPos).2.2.2 rfl (by with_unfolding_all decide)⟩

/-- C2 counterexample: for a surviving record with revenue = 0 the
code's profit_margin is the defined string NaN (or Infinity when
profit is positive), not an undefined/null value. -/
theorem profit_margin_counterexample :
    (enrichRow envEN rowZeroRev).profit_margin = "NaN" ∧
    (enrichRow envEN rowZeroRevPos).profit_margin = "Infinity" ∧
    (enrichRow envEN rowZeroRev).profit_margin ≠ "" := by
  with_unfolding_all decide

/-- C3: the derived month and quarter are not locale-independent nor
functions of the record's calendar month alone: the same record dated
2023-01-01 is enriched to Jan/Q1 in an English-locale UTC runtime, to
Dec/Q4 in an English-locale runtime five hours west of UTC, and to
janv. in a French-locale runtime, because the code uses
toLocaleString with the default locale and the local-time getMonth on
a Date parsed as midnight UTC. -/
theorem month_depends_on_environment :
    (enrichRow envEN rowJan1).month = "Jan" ∧ (enrichRow envEN rowJan1).quarter = "Q1" ∧
    (enrichRow envNY rowJan1).month = "Dec" ∧ (enrichRow envNY rowJan1).quarter = "Q4" ∧
    (enrichRow envFR rowJan1).month = "janv." ∧
    (enrichRow envNY rowJan1).month ≠ (enrichRow envEN rowJan1).month ∧
    (enrichRow envFR rowJan1).month ≠ (enrichRow envEN rowJan1).month := by
  with_unfolding_all decide

/-- C4: every record in the cleaned output has a unique transaction
id, non-empty category and customer_segment, non-negative quantity
and revenue, and revenue at most 5 times the mean revenue of the
working set the outlier stage filtered from (the set after the
deduplication, missing-value and normalisation stages). -/
theorem cleaned_invariants (env : Env) (raw : List Row) :
    ((performETL env raw).1.map fun r => r.transaction_id).Nodup ∧
    ∀ r ∈ (performETL env raw).1,
      r.category ≠ "" ∧ r.customer_segment ≠ "" ∧ 0 ≤ r.quantity ∧ 0 ≤ r.revenue ∧
      r.revenue ≤ meanRev (normalizeStage (missingStage (dedupStage raw).1).1).1 * 5 := by
  have hout : (outlierStage (normalizeStage (missingStage (dedupStage raw).1).1).1).1
      = (normalizeStage (missingStage (dedupStage raw).1).1).1.filter
          (fun r => decide (r.revenue ≤
            meanRev (normalizeStage (missingStage (dedupStage raw).1).1).1 * 5)) :=
    dropOutliers_fst _ _
  constructor
  · rw [performETL_fst]
    have hmap : ((enrichStage env
          (outlierStage (normalizeStage (missingStage (dedupStage raw).1).1).1).1).map
            fun r => r.transaction_id)
        = ((outlierStage (normalizeStage (missingStage (dedupStage raw).1).1).1).1.map
            fun r => r.transaction_id) := by
      show ((List.map (enrichRow env) _).map fun r => r.transaction_id) = _
      rw [List.map_map]
      rfl
    rw [hmap, hout]
    exact List.Nodup.sublist ((List.filter_sublist _).map _) (postNormalize_ids_nodup raw)
  · intro r hr
    rw [performETL_fst] at hr
    rcases List.mem_map.mp hr with ⟨s, hs, rfl⟩
    rw [hout] at hs
    obtain ⟨hsw, hdec⟩ := List.mem_filter.mp hs
    have hrev : s.revenue ≤ meanRev (normalizeStage (missingStage (dedupStage raw).1).1).1 * 5 :=
      of_decide_eq_true hdec
    obtain ⟨h1, h2, h3, h4⟩ := postNormalize_fields raw s hsw
    exact ⟨h1, h2, h3, h4, hrev⟩

theorem cleaned_invariants_witness :
    (enrichRow envEN rowA).category ≠ "" ∧ (enrichRow envEN rowA).customer_segment ≠ "" ∧
    0 ≤ (enrichRow envEN rowA).quantity ∧ 0 ≤ (enrichRow envEN rowA).revenue := by
  have h := (cleaned_invariants envEN [rowA]).2 (enrichRow envEN rowA)
    (by with_unfolding_all decide)
  exact ⟨h.1, h.2.1, h.2.2.1, h.2.2.2.1⟩

/-- C5: the outlier stage keeps exactly the records whose revenue does
not strictly exceed 5 times the arithmetic mean revenue of its input
set, counts one outliersRemoved per dropped record, does nothing on an
empty input, and performETL feeds it the working set produced by the
deduplication, missing-value and normalisation stages, not the raw
input. -/
theorem outlier_stage_spec (w : List Row) :
    (outlierStage w).1 = w.filter (fun r => decide (r.revenue ≤ meanRev w * 5)) ∧
    (outlierStage w).2 = w.countP (fun r => decide (meanRev w * 5 < r.revenue)) ∧
    (w = [] → outlierStage w = ([], 0)) ∧
    ∀ env raw,
      (performETL env raw).1 =
        enrichStage env (outlierStage (normalizeStage (missingStage (dedupStage raw).1).1).1).1 ∧
      (performETL env raw).2.outliersRemoved =
        (outlierStage (normalizeStage (missingStage (dedupStage raw).1).1).1).2 :=
  ⟨dropOutliers_fst _ _, dropOutliers_snd _ _,
   fun h => by rw [h]; rfl,
   fun _ _ => ⟨rfl, rfl⟩⟩

theorem outlier_stage_spec_witness : outlierStage ([] : List Row) = ([], 0) :=
  (outlier_stage_spec []).2.2.1 rfl

/-- C6: a record entering the normalisation stage with negative
quantity or revenue gets both replaced by their absolute values with
every other field (cost and profit included) unchanged, counting one
negativeValuesFixed; a record with non-negative quantity and revenue
passes through unchanged. -/
theorem normalize_stage_spec (r : Row) (l : List Row) :
    (r.quantity < 0 ∨ r.revenue < 0 →
      normRow r = { r with quantity := |r.quantity|, revenue := |r.revenue| }) ∧
    (0 ≤ r.quantity ∧ 0 ≤ r.revenue → normRow r = r) ∧
    ((normRow r).transaction_id = r.transaction_id ∧ (normRow r).date = r.date ∧
     (normRow r).category = r.category ∧ (normRow r).region = r.region ∧
     (normRow r).channel = r.channel ∧ (normRow r).customer_segment = r.customer_segment ∧
     (normRow r).unit_price = r.unit_price ∧ (normRow r).cost = r.cost ∧
     (normRow r).profit = r.profit ∧ (normRow r).issue_flag = r.issue_flag) ∧
    (normalizeStage l).1 = l.map normRow ∧
    (normalizeStage l).2 = l.countP fun x => decide (x.quantity < 0) || decide (x.revenue < 0) := by
  refine ⟨fun h => by unfold normRow; rw [if_pos h],
          fun h => by unfold normRow; rw [if_neg (by push_neg; exact h)],
          ?_, rfl, rfl⟩
  unfold normRow
  split <;> exact ⟨rfl, rfl, rfl, rfl, rfl, rfl, rfl, rfl, rfl, rfl⟩

theorem normalize_stage_spec_witness :
    normRow rowNeg = { rowNeg with quantity := |rowNeg.quantity|, revenue := |rowNeg.revenue| } ∧
    normRow rowA = rowA :=
  ⟨(normalize_stage_spec rowNeg []).1 (by with_unfolding_all decide),
   (normalize_stage_spec rowA []).2.1 (by with_unfolding_all decide)⟩

/-- C7: the deduplication stage keeps, in input order, exactly the
first record seen for each transaction id with its field values
(find? returns the first match), drops every later record sharing an
id already seen, and increments duplicatesRemoved once per dropped
record. -/
theorem dedup_stage_spec (l : List Row) :
    (dedupStage l).1.Sublist l ∧
    ((dedupStage l).1.map fun r => r.transaction_id).Nodup ∧
    (∀ r ∈ (dedupStage l).1,
      l.find? (fun x => x.transaction_id == r.transaction_id) = some r) ∧
    (∀ r ∈ l, ∃ s ∈ (dedupStage l).1, s.transaction_id = r.transaction_id) ∧
    (dedupStage l).1.length + (dedupStage l).2 = l.length := by
  refine ⟨dedupGo_sublist [] l, dedupGo_ids_nodup [] l, dedupGo_first [] l, ?_, dedupGo_length [] l⟩
  intro r hr
  rcases dedupGo_covers [] l r hr with h | h
  · simp at h
  · exact h

theorem dedup_stage_spec_witness :
    [rowA, rowB].find? (fun x => x.transaction_id == rowA.transaction_id) = some rowA ∧
    (dedupStage [rowA, rowB]).1.length + (dedupStage [rowA, rowB]).2 = 2 :=
  ⟨(dedup_stage_spec [rowA, rowB]).2.2.1 rowA (by with_unfolding_all decide),
   (dedup_stage_spec [rowA, rowB]).2.2.2.2⟩

/-- C8: the category aggregation is sorted descending by summed
revenue, and the revenues of its rows sum exactly to the totalRevenue
reduction that the kpis memo renders as the totalRevenue KPI of the
same filtered set. -/
theorem category_partition_spec (l : List CRow) :
    List.Sorted catRevGE (categoryData l) ∧
    ((categoryData l).map fun g => g.revenue).sum = totalRevenueOf l ∧
    (kpis l).totalRevenue = jsToFixed 0 (JSNum.num (totalRevenueOf l)) := by
  refine ⟨List.sorted_insertionSort catRevGE _, ?_, rfl⟩
  have hperm : List.Perm ((categoryData l).map fun g => g.revenue)
      ((l.foldl upsertCat []).map fun g => g.revenue) :=
    (List.perm_insertionSort catRevGE _).map _
  rw [hperm.sum_eq, sum_foldl_upsertCat]
  simp [totalRevenueOf, foldl_add_revenue]

/-- C9: the month aggregation always returns exactly 12 entries whose
month labels are the canonical Jan to Dec list in order, and the entry
of a month with no data in the filtered set is zero-valued. -/
theorem monthly_trend_spec (l : List CRow) :
    (monthlyTrend l).length = 12 ∧
    (monthlyTrend l).map MonthRow.month = monthOrder ∧
    ∀ m ∈ monthOrder, (∀ r ∈ l, r.month ≠ m) → monthEntry l m = MonthRow.mk m 0 0 := by
  refine ⟨by simp [monthlyTrend, monthOrder], ?_, fun m _ h => monthEntry_of_absent l m h⟩
  show (monthOrder.map (monthEntry l)).map MonthRow.month = monthOrder
  rw [List.map_map]
  have h : MonthRow.month ∘ monthEntry l = id := funext fun m => monthEntry_month l m
  rw [h, List.map_id]

theorem monthly_trend_spec_witness :
    monthEntry [enrichRow envEN rowA] "Jul" = MonthRow.mk "Jul" 0 0 :=
  (monthly_trend_spec [enrichRow envEN rowA]).2.2 "Jul" (by decide)
    (by with_unfolding_all decide)

/-- C10: the report counters always satisfy totalRecords =
duplicatesRemoved + missingValuesHandled + outliersRemoved +
recordsAfterCleaning, because the normalisation and enrichment stages
preserve the record count. -/
theorem etl_report_counters (env : Env) (raw : List Row) :
    (performETL env raw).2.totalRecords =
      (performETL env raw).2.duplicatesRemoved +
      (performETL env raw).2.missingValuesHandled +
      (performETL env raw).2.outliersRemoved +
      (performETL env raw).2.recordsAfterCleaning := by
  have h1 : (dedupStage raw).1.length + (dedupStage raw).2 = raw.length := dedupGo_length [] raw
  have h2 := missingStage_length (dedupStage raw).1
  have h3 : (normalizeStage (missingStage (dedupStage raw).1).1).1.length
      = (missingStage (dedupStage raw).1).1.length := List.length_map _ _
  have h4 : (outlierStage (normalizeStage (missingStage (dedupStage raw).1).1).1).1.length +
        (outlierStage (normalizeStage (missingStage (dedupStage raw).1).1).1).2
      = (normalizeStage (missingStage (dedupStage raw).1).1).1.length :=
    dropOutliers_length _ _
  have h5 : (performETL env raw).2.totalRecords = raw.length := rfl
  have h6 : (performETL env raw).2.duplicatesRemoved = (dedupStage raw).2 := rfl
  have h7 : (performETL env raw).2.missingValuesHandled
      = (missingStage (dedupStage raw).1).2 := rfl
  have h8 : (performETL env raw).2.outliersRemoved
      = (outlierStage (normalizeStage (missingStage (dedupStage raw).1).1).1).2 := rfl
  have h9 : (performETL env raw).2.recordsAfterCleaning
      = (outlierStage (normalizeStage (missingStage (dedupStage raw).1).1).1).1.length := by
    show (enrichStage env _).length = _
    exact List.length_map _ _
  rw [h5, h6, h7, h8, h9]
  omega

end Retail
